import Mathlib

/-!
Verification development for the FolderBackup repository (Go, two variants:
`main.go` with incremental run-state tracking, and an unnamed variant with a
timer loop and a modification-time comparison policy).

Paths are modeled as lists of components (`filepath.Join` appends components,
`filepath.Base` is the last component, `filepath.Dir` drops it,
`filepath.Rel root loc` drops the root prefix — the program only ever calls
`Rel` on locations produced by walking `root`, where this is exact).
The filesystem seen by a scan is a tree of named entries; the filesystem
state mutated by renames and copies is a map from paths to contents.
Timestamps are integers (instants) except where the Go code formats a
broken-down wall-clock time, which is modeled by `GoTime`.
-/

namespace FolderBackup

/-- Filesystem paths, as lists of components. -/
abbrev Path := List String

/-- Model of `filepath.Base`: the last component of a path (`"."` for an
empty path, as in Go). -/
def pathBase : Path → String
  | [] => "."
  | [x] => x
  | _ :: xs => pathBase xs

/-- Model of `filepath.Dir`: drop the last component. -/
def pathDir (p : Path) : Path := p.dropLast

/-- Model of `filepath.Rel root loc` for the only case the program exercises
(`loc` was produced by walking `root`, so `root` is a prefix of `loc`):
drop the root prefix. -/
def relPath (root loc : Path) : Path := loc.drop root.length

/-- Broken-down wall-clock time, the shape `time.Time` exposes to the two
`Format` layouts used by the program. The zone is modeled as UTC. -/
structure GoTime where
  year : Nat
  month : Nat
  day : Nat
  hour : Nat
  minute : Nat
  second : Nat
deriving Repr, DecidableEq

/-- Go's `appendInt(x, 2)`: decimal digits, zero-padded on the left to
width 2 (wider numbers keep all their digits). -/
def pad2 (n : Nat) : String :=
  if n < 10 then "0" ++ toString n else toString n

/-- Go's `appendInt(x, 4)`: decimal digits, zero-padded on the left to
width 4 (wider numbers keep all their digits). -/
def pad4 (n : Nat) : String :=
  if n < 10 then "000" ++ toString n
  else if n < 100 then "00" ++ toString n
  else if n < 1000 then "0" ++ toString n
  else toString n

/-- Model of `t.Format("20060102150405")`: year, month, day, hour, minute,
second as fixed-width decimal fields with no separators. -/
def formatCompact (t : GoTime) : String :=
  pad4 t.year ++ pad2 t.month ++ pad2 t.day ++
    pad2 t.hour ++ pad2 t.minute ++ pad2 t.second

/-- Model of `t.Format(time.RFC3339)` (zone modeled as UTC, hence the
trailing `Z`). -/
def formatRFC3339 (t : GoTime) : String :=
  pad4 t.year ++ "-" ++ pad2 t.month ++ "-" ++ pad2 t.day ++ "T" ++
    pad2 t.hour ++ ":" ++ pad2 t.minute ++ ":" ++ pad2 t.second ++ "Z"

/-- Suffix of a character list starting at its final `'.'`, if any.
Helper for `fileExt`. -/
def extFromChars : List Char → Option (List Char)
  | [] => none
  | c :: cs =>
    match extFromChars cs with
    | some e => some e
    | none => if c = '.' then some (c :: cs) else none

/-- Model of `filepath.Ext` applied to a base file name (no separators):
the suffix beginning at the final dot, or `""` if there is none. -/
def fileExt (name : String) : String :=
  match extFromChars name.toList with
  | some e => String.mk e
  | none => ""

/-- Model of `strings.TrimSuffix`: remove `suffix` from the end of `s` when
it is a suffix, otherwise return `s` unchanged. -/
def trimSuffix (s suffix : String) : String :=
  if suffix.toList <:+ s.toList
  then String.mk (s.toList.take (s.toList.length - suffix.toList.length))
  else s

/-- The timestamped trash name computed by the orphan loop:
`fileName + "." + processStart.Format("20060102150405") + fileExtension`,
where `fileName` is the base name with its extension stripped. -/
def timestampedName (name : String) (start : GoTime) : String :=
  let fileExtension := fileExt name
  let fileName := trimSuffix name fileExtension
  let timeStamp := "." ++ formatCompact start
  fileName ++ timeStamp ++ fileExtension

/-- The trash destination computed by the orphan loop:
`filepath.Join(filepath.Join(config.OutputPath, "trash"), newName)`. -/
def trashDest (outputPath : Path) (name : String) (start : GoTime) : Path :=
  (outputPath ++ ["trash"]) ++ [timestampedName name start]

/-- The `filesData` record of `main.go` (`Name`, `Location`, `ModTime`,
`New`). The unnamed variant's `filesData` lacks the `New` field; its scans
are modeled with `lastRun = none` and the field ignored. -/
structure FilesData where
  name : String
  location : Path
  modTime : Int
  new : Bool
deriving Repr, DecidableEq

/-- The `pathsConfig` struct: the two roots from `path.json`. -/
structure PathsConfig where
  inputPath : Path
  outputPath : Path
deriving Repr, DecidableEq

/-- The `new := lastRun == nil || info.ModTime().After(*lastRun)`
computation of `visitFileInfos` (`After` is strict `>`). -/
def isNewFile (lastRun : Option Int) (modTime : Int) : Bool :=
  match lastRun with
  | none => true
  | some lr => lr < modTime

/-- The `os.FileInfo` data `visitFileInfos` consumes. -/
structure FileInfo where
  name : String
  modTime : Int
  isDir : Bool
deriving Repr, DecidableEq

/-- Model of `visitFileInfos`: `info = none` is the `err != nil` case (the
error is printed and the entry skipped); a directory yields no record; a
regular file yields a record with the `New` flag. -/
def visitFileInfos (path : Path) (info : Option FileInfo) (lastRun : Option Int) :
    Option FilesData :=
  match info with
  | none => none
  | some info =>
    if info.isDir then none
    else some { name := info.name, location := path, modTime := info.modTime,
                new := isNewFile lastRun info.modTime }

/-- A filesystem tree entry: a regular file (name, mod time, content) or a
directory with its children. -/
inductive FSEntry where
  | file (name : String) (modTime : Int) (content : Nat)
  | dir (name : String) (entries : List FSEntry)
deriving Repr

/-- Name of an entry. -/
def FSEntry.entryName : FSEntry → String
  | .file n _ _ => n
  | .dir n _ => n

/-- Model of the body of `filepath.Walk` over the children of a directory at
`dirPath`, with the walk callback of `gatherFiles`:
a callback returning `SkipDir` on an entry whose base name is `"trash"`
skips that directory's subtree, and — per `filepath.Walk` semantics — when
returned on a regular file it also skips the remaining unvisited entries of
the containing directory (the `[]` early return in the file case). -/
def walkList (dirPath : Path) (lastRun : Option Int) : List FSEntry → List FilesData
  | [] => []
  | .file n mt _ :: rest =>
    if pathBase (dirPath ++ [n]) = "trash" then []
    else
      match visitFileInfos (dirPath ++ [n]) (some ⟨n, mt, false⟩) lastRun with
      | some fd => fd :: walkList dirPath lastRun rest
      | none => walkList dirPath lastRun rest
  | .dir n entries :: rest =>
    if pathBase (dirPath ++ [n]) = "trash" then walkList dirPath lastRun rest
    else walkList (dirPath ++ [n]) lastRun entries ++ walkList dirPath lastRun rest
termination_by es => sizeOf es
decreasing_by
  all_goals simp_wf
  all_goals omega

/-- Model of `gatherFiles`. `root = none` is the case where `lstat` of the
root fails (root missing or inaccessible): `filepath.Walk` then calls the
callback once with a non-nil error; the callback either returns `SkipDir`
(base name `"trash"`, converted to `nil` by `Walk`) or lets
`visitFileInfos` print the error and returns `nil` — in every case the
callback returns `nil` or `SkipDir`, never a real error, so `gatherFiles`
returns `(files, nil)`. The error component is kept in the result type to
mirror the Go signature. -/
def gatherFiles (rootPath : Path) (root : Option FSEntry) (lastRun : Option Int) :
    List FilesData × Option String :=
  match root with
  | none => ([], none)
  | some (.file n mt _) =>
    if pathBase rootPath = "trash" then ([], none)
    else
      match visitFileInfos rootPath (some ⟨n, mt, false⟩) lastRun with
      | some fd => ([fd], none)
      | none => ([], none)
  | some (.dir _ entries) =>
    if pathBase rootPath = "trash" then ([], none)
    else (walkList rootPath lastRun entries, none)

/-- The relative-path correlation index (`map[string]filesData`), modeled as
an association list with key-overwriting insertion, mirroring Go map
assignment. -/
abbrev RelMap := List (Path × FilesData)

/-- Go map assignment `m[k] = v`: overwrite the entry for `k` if present,
otherwise add it. -/
def mapInsert (m : RelMap) (k : Path) (v : FilesData) : RelMap :=
  match m with
  | [] => [(k, v)]
  | (k', v') :: rest => if k' = k then (k, v) :: rest else (k', v') :: mapInsert rest k v

/-- Go map lookup `m[k]`. -/
def mapFind (m : RelMap) (k : Path) : Option FilesData :=
  match m with
  | [] => none
  | (k', v') :: rest => if k' = k then some v' else mapFind rest k

/-- Construction of `inFilesMap` (and `outFilesMap` in the unnamed variant):
`for _, file := range files { m[filepath.Rel(root, file.Location)] = file }`. -/
def buildRelMap (root : Path) (files : List FilesData) : RelMap :=
  files.foldl (fun m f => mapInsert m (relPath root f.location) f) []

/-- The output records the orphan loop acts on: those whose relative path is
absent from `inFilesMap` (`if _, exists := inFilesMap[relativePath]; !exists`). -/
def orphanRecords (cfg : PathsConfig) (inMap : RelMap) (outs : List FilesData) :
    List FilesData :=
  outs.filter fun output =>
    (mapFind inMap (relPath cfg.outputPath output.location)).isNone

/-- The input records the copy loop acts on in `main.go`: those with
`input.New` set. -/
def copyRecords (ins : List FilesData) : List FilesData :=
  ins.filter fun input => input.new

/-- On-disk state outside the scanned trees' snapshots: a map from paths to
file contents, mutated by renames and copies. -/
abbrev FState := Path → Option Nat

/-- Reading the file at a path. -/
def fsGet (s : FState) (p : Path) : Option Nat := s p

/-- Writing a file (`os.Create` + `io.Copy` overwrite any existing content). -/
def fsSet (s : FState) (p : Path) (c : Nat) : FState :=
  fun q => if q = p then some c else s q

/-- Removing a file. -/
def fsRemove (s : FState) (p : Path) : FState :=
  fun q => if q = p then none else s q

/-- Model of `os.Rename(src, dst)` (the body of `moveToTrash`): move the file
at `src` to `dst`, replacing any existing file at `dst`; if `src` does not
exist the rename fails and the state is unchanged (the caller logs the
error). -/
def fsRename (s : FState) (src dst : Path) : FState :=
  match s src with
  | none => s
  | some c => fsSet (fsRemove s src) dst c

/-- Fault-injection environment for one run: the content of `./time.txt`
(`none` = read error or absent), whether opening `file_error.log` fails,
the set of directories whose `os.MkdirAll` fails, the set of rename sources
whose `os.Rename` fails, the set of copy destinations whose `copyFile`
fails, and whether the final `ioutil.WriteFile("./time.txt", ...)` fails. -/
structure RunEnv where
  timeTxt : Option String
  logOpenFails : Bool
  mkdirFails : List Path
  renameFails : List Path
  copyFails : List Path
  persistFails : Bool

/-- Model of `createIfNotExist`: succeeds when the directory exists or
`os.MkdirAll` succeeds; when `os.MkdirAll` fails the code logs and calls
`os.Exit(1)`, modeled as `none` (fatal abort of the whole process). -/
def createIfNotExist (env : RunEnv) (dir : Path) : Option Unit :=
  if dir ∈ env.mkdirFails then none else some ()

/-- Looking up the content of the file at relative path `p` under a scanned
root tree; `none` when absent or a directory (then `copyFile`'s
`os.Open`/`io.Copy` fails and the error is logged). -/
def findEntry : List FSEntry → String → Option FSEntry
  | [], _ => none
  | e :: rest, n => if e.entryName = n then some e else findEntry rest n

/-- Content of the file at relative path `p` under `root`. -/
def contentAt : Option FSEntry → Path → Option Nat
  | none, _ => none
  | some (.file _ _ c), [] => some c
  | some (.file _ _ _), _ :: _ => none
  | some (.dir _ _), [] => none
  | some (.dir _ entries), n :: rest => contentAt (findEntry entries n) rest

/-- One iteration of the orphan loop of `main.go` (lines 142–156): if the
output record's relative path is absent from `inFilesMap`, compute the
timestamped trash destination, run `createIfNotExist(filepath.Dir(newPath))`
(fatal on failure), then `moveToTrash`; a failed rename is logged and the
loop continues. -/
def orphanStep (env : RunEnv) (cfg : PathsConfig) (start : GoTime) (inMap : RelMap)
    (s : FState) (output : FilesData) : Option FState :=
  let relativePath := relPath cfg.outputPath output.location
  match mapFind inMap relativePath with
  | some _ => some s
  | none =>
    let newPath := trashDest cfg.outputPath output.name start
    match createIfNotExist env (pathDir newPath) with
    | none => none
    | some _ =>
      if output.location ∈ env.renameFails then some s
      else some (fsRename s output.location newPath)

/-- The orphan loop over the output scan. -/
def orphanPhase (env : RunEnv) (cfg : PathsConfig) (start : GoTime) (inMap : RelMap)
    (outs : List FilesData) (s : FState) : Option FState :=
  outs.foldlM (orphanStep env cfg start inMap) s

/-- One iteration of the copy loop of `main.go` (lines 158–171): records with
`input.New` are copied from `Join(inputPath, rel)` to `Join(outputPath, rel)`
after `createIfNotExist(filepath.Dir(destination))` (fatal on failure); a
failed `copyFile` is logged and the loop continues. -/
def copyStep (env : RunEnv) (cfg : PathsConfig) (inputRoot : Option FSEntry)
    (s : FState) (input : FilesData) : Option FState :=
  if input.new then
    let relativePath := relPath cfg.inputPath input.location
    let destination := cfg.outputPath ++ relativePath
    match createIfNotExist env (pathDir destination) with
    | none => none
    | some _ =>
      if destination ∈ env.copyFails then some s
      else
        match contentAt inputRoot relativePath with
        | some c => some (fsSet s destination c)
        | none => some s
  else some s

/-- The copy loop over the input scan. -/
def copyPhase (env : RunEnv) (cfg : PathsConfig) (inputRoot : Option FSEntry)
    (ins : List FilesData) (s : FState) : Option FState :=
  ins.foldlM (copyStep env cfg inputRoot) s

/-- Value of a decimal digit character. -/
def digitVal (c : Char) : Option Nat :=
  if '0' ≤ c ∧ c ≤ '9' then some (c.toNat - 48) else none

/-- Parse exactly `n` decimal digits, accumulating their value. -/
def parseNDigits : Nat → List Char → Nat → Option (Nat × List Char)
  | 0, cs, acc => some (acc, cs)
  | n + 1, cs, acc =>
    match cs with
    | [] => none
    | c :: rest =>
      match digitVal c with
      | some d => parseNDigits n rest (acc * 10 + d)
      | none => none

/-- Consume one expected character. -/
def expectChar (c : Char) : List Char → Option (List Char)
  | x :: rest => if x = c then some rest else none
  | [] => none

/-- Parse the RFC 3339 zone designator: `Z`, or `±hh:mm` as minutes east of
UTC. -/
def parseZone (cs : List Char) : Option (Int × List Char) :=
  match cs with
  | 'Z' :: rest => some (0, rest)
  | '+' :: rest =>
    match parseNDigits 2 rest 0 with
    | some (h, rest') =>
      match expectChar ':' rest' with
      | some rest'' =>
        match parseNDigits 2 rest'' 0 with
        | some (m, rest3) =>
          if h ≤ 23 ∧ m ≤ 59 then some ((h * 60 + m : Nat), rest3) else none
        | none => none
      | none => none
    | none => none
  | '-' :: rest =>
    match parseNDigits 2 rest 0 with
    | some (h, rest') =>
      match expectChar ':' rest' with
      | some rest'' =>
        match parseNDigits 2 rest'' 0 with
        | some (m, rest3) =>
          if h ≤ 23 ∧ m ≤ 59 then some (-((h * 60 + m : Nat) : Int), rest3) else none
        | none => none
      | none => none
    | none => none
  | _ => none

/-- Whether a (proleptic Gregorian) year is a leap year. -/
def isLeap (y : Nat) : Bool := y % 4 = 0 ∧ (y % 100 ≠ 0 ∨ y % 400 = 0)

/-- Number of days in a month. -/
def daysInMonth (y m : Nat) : Nat :=
  if m = 2 then (if isLeap y then 29 else 28)
  else if m = 4 ∨ m = 6 ∨ m = 9 ∨ m = 11 then 30
  else 31

/-- Days since 1970-01-01 of a civil date (standard civil-calendar
conversion, integer arithmetic truncating toward zero on the era split). -/
def daysFromCivil (y m d : Int) : Int :=
  let y' := if m ≤ 2 then y - 1 else y
  let era := (if 0 ≤ y' then y' else y' - 399) / 400
  let yoe := y' - era * 400
  let mp := if 2 < m then m - 3 else m + 9
  let doy := (153 * mp + 2) / 5 + d - 1
  let doe := yoe * 365 + yoe / 4 - yoe / 100 + doy
  era * 146097 + doe - 719468

/-- Instant (seconds since the epoch) of a wall-clock time at a zone offset
in minutes east of UTC. -/
def toEpoch (t : GoTime) (offsetMin : Int) : Int :=
  daysFromCivil t.year t.month t.day * 86400 +
    (t.hour : Int) * 3600 + (t.minute : Int) * 60 + (t.second : Int) - offsetMin * 60

/-- Model of `time.Parse(time.RFC3339, s)`: `YYYY-MM-DDThh:mm:ss` followed by
`Z` or `±hh:mm`, with field validation; the result is the parsed instant.
Fractional seconds (accepted by Go, never written by this program) are not
modeled. `none` is Go's non-nil parse error. -/
def parseRFC3339 (s : String) : Option Int :=
  match parseNDigits 4 s.toList 0 with
  | none => none
  | some (y, r1) =>
  match expectChar '-' r1 with
  | none => none
  | some r2 =>
  match parseNDigits 2 r2 0 with
  | none => none
  | some (mo, r3) =>
  match expectChar '-' r3 with
  | none => none
  | some r4 =>
  match parseNDigits 2 r4 0 with
  | none => none
  | some (d, r5) =>
  match expectChar 'T' r5 with
  | none => none
  | some r6 =>
  match parseNDigits 2 r6 0 with
  | none => none
  | some (h, r7) =>
  match expectChar ':' r7 with
  | none => none
  | some r8 =>
  match parseNDigits 2 r8 0 with
  | none => none
  | some (mi, r9) =>
  match expectChar ':' r9 with
  | none => none
  | some r10 =>
  match parseNDigits 2 r10 0 with
  | none => none
  | some (se, r11) =>
  match parseZone r11 with
  | none => none
  | some (off, r12) =>
    if r12 = [] ∧ 1 ≤ mo ∧ mo ≤ 12 ∧ 1 ≤ d ∧ d ≤ daysInMonth y mo ∧
        h ≤ 23 ∧ mi ≤ 59 ∧ se ≤ 59 then
      some (toEpoch ⟨y, mo, d, h, mi, se⟩ off)
    else none

/-- Model of one run of `main.go`'s `main` (lines 92–177), with `path.json`
already read into `cfg` and the run's start time `start` captured. In order:
`createIfNotExist` on the output root and the trash root (fatal on failure),
read and parse `./time.txt` into `lastRun` (failures silently yield `nil`),
scan both roots (a non-nil scan error is `log.Fatal`), build `inFilesMap`,
open `file_error.log` (fatal on failure), run the orphan loop then the copy
loop, and finally persist `processStart` to `./time.txt` (`log.Fatal` on
failure). `none` models a fatal abort; `some (s, txt)` is the final disk
state together with the persisted run-state content. -/
def runProcess (env : RunEnv) (cfg : PathsConfig) (start : GoTime)
    (inputRoot outputRoot : Option FSEntry) (s : FState) :
    Option (FState × String) :=
  match createIfNotExist env cfg.outputPath with
  | none => none
  | some _ =>
  match createIfNotExist env (cfg.outputPath ++ ["trash"]) with
  | none => none
  | some _ =>
    let lastRun := env.timeTxt.bind parseRFC3339
    match gatherFiles cfg.inputPath inputRoot lastRun with
    | (_, some _) => none
    | (filesInInputPath, none) =>
    match gatherFiles cfg.outputPath outputRoot none with
    | (_, some _) => none
    | (filesInOutputPath, none) =>
      if env.logOpenFails then none
      else
        let inFilesMap := buildRelMap cfg.inputPath filesInInputPath
        match orphanPhase env cfg start inFilesMap filesInOutputPath s with
        | none => none
        | some s1 =>
        match copyPhase env cfg inputRoot filesInInputPath s1 with
        | none => none
        | some s2 =>
          if env.persistFails then none
          else some (s2, formatRFC3339 start)

/-- The skip decision of the unnamed variant's copy loop (`part_000` lines
164–169): when the relative path exists in `outFilesMap`, the copy is
skipped exactly when `output.ModTime.After(input.ModTime)`. -/
def shouldSkipCopy (outMap : RelMap) (rel : Path) (inputMod : Int) : Bool :=
  match mapFind outMap rel with
  | some output => inputMod < output.modTime
  | none => false

/-- Relative paths the unnamed variant's copy loop (`part_000` lines
159–176) actually copies: every input record, except those skipped because a
strictly newer output exists. -/
def copiedRelPathsV0 (cfg : PathsConfig) (outMap : RelMap) (ins : List FilesData) :
    List Path :=
  (ins.filter fun input =>
      !shouldSkipCopy outMap (relPath cfg.inputPath input.location) input.modTime).map
    fun input => relPath cfg.inputPath input.location

/-! Helper lemmas. -/

theorem pathBase_append_single (l : Path) (x : String) : pathBase (l ++ [x]) = x := by
  induction l with
  | nil => rfl
  | cons a l ih =>
    cases l with
    | nil => simp [pathBase] at ih ⊢
    | cons b l => simpa [pathBase] using ih

theorem mem_walkList_location {dirPath : Path} {lastRun : Option Int} {es : List FSEntry}
    {f : FilesData} (hf : f ∈ walkList dirPath lastRun es) :
    ∃ cs, f.location = dirPath ++ cs ∧ cs ≠ [] ∧ "trash" ∉ cs := by
  induction dirPath, lastRun, es using walkList.induct with
  | case1 dirPath lastRun =>
    simp [walkList] at hf
  | case2 dirPath lastRun n mt c rest h =>
    rw [walkList, if_pos h] at hf
    simp at hf
  | case3 dirPath lastRun n mt c rest h fd hfd ih =>
    rw [walkList, if_neg h, hfd] at hf
    rcases List.mem_cons.1 hf with rfl | hf'
    · have hn : n ≠ "trash" := by
        rw [pathBase_append_single] at h; exact h
      refine ⟨[n], ?_, by simp, by simp [Ne.symm hn]⟩
      simp [visitFileInfos] at hfd
      rw [← hfd]
    · exact ih hf'
  | case4 dirPath lastRun n mt c rest h hfd ih =>
    rw [walkList, if_neg h, hfd] at hf
    exact ih hf
  | case5 dirPath lastRun n entries rest h ih =>
    rw [walkList, if_pos h] at hf
    exact ih hf
  | case6 dirPath lastRun n entries rest h ih1 ih2 =>
    rw [walkList, if_neg h] at hf
    have hn : n ≠ "trash" := by
      rw [pathBase_append_single] at h; exact h
    rcases List.mem_append.1 hf with hl | hr
    · obtain ⟨cs, hcs, -, htr⟩ := ih1 hl
      exact ⟨n :: cs, by simpa using hcs, by simp, by simp [Ne.symm hn, htr]⟩
    · exact ih2 hr

theorem mem_walkList_new {dirPath : Path} {lastRun : Option Int} {es : List FSEntry}
    {f : FilesData} (hf : f ∈ walkList dirPath lastRun es) :
    f.new = isNewFile lastRun f.modTime := by
  induction dirPath, lastRun, es using walkList.induct with
  | case1 dirPath lastRun =>
    simp [walkList] at hf
  | case2 dirPath lastRun n mt c rest h =>
    rw [walkList, if_pos h] at hf
    simp at hf
  | case3 dirPath lastRun n mt c rest h fd hfd ih =>
    rw [walkList, if_neg h, hfd] at hf
    rcases List.mem_cons.1 hf with rfl | hf'
    · simp [visitFileInfos] at hfd
      rw [← hfd]
    · exact ih hf'
  | case4 dirPath lastRun n mt c rest h hfd ih =>
    rw [walkList, if_neg h, hfd] at hf
    exact ih hf
  | case5 dirPath lastRun n entries rest h ih =>
    rw [walkList, if_pos h] at hf
    exact ih hf
  | case6 dirPath lastRun n entries rest h ih1 ih2 =>
    rw [walkList, if_neg h] at hf
    rcases List.mem_append.1 hf with hl | hr
    · exact ih1 hl
    · exact ih2 hr

theorem mem_gatherFiles_location {rootPath : Path} {root : FSEntry} {lastRun : Option Int}
    {f : FilesData} (hf : f ∈ (gatherFiles rootPath (some root) lastRun).1) :
    ∃ cs, f.location = rootPath ++ cs ∧ "trash" ∉ cs := by
  match root with
  | .file n mt c =>
    rw [gatherFiles] at hf
    by_cases h : pathBase rootPath = "trash"
    · rw [if_pos h] at hf; simp at hf
    · rw [if_neg h] at hf
      simp [visitFileInfos] at hf
      refine ⟨[], by simp [hf], by simp⟩
  | .dir n entries =>
    rw [gatherFiles] at hf
    by_cases h : pathBase rootPath = "trash"
    · rw [if_pos h] at hf; simp at hf
    · rw [if_neg h] at hf
      obtain ⟨cs, hcs, -, htr⟩ := mem_walkList_location hf
      exact ⟨cs, hcs, htr⟩

theorem mem_gatherFiles_new {rootPath : Path} {root : FSEntry} {lastRun : Option Int}
    {f : FilesData} (hf : f ∈ (gatherFiles rootPath (some root) lastRun).1) :
    f.new = isNewFile lastRun f.modTime := by
  match root with
  | .file n mt c =>
    rw [gatherFiles] at hf
    by_cases h : pathBase rootPath = "trash"
    · rw [if_pos h] at hf; simp at hf
    · rw [if_neg h] at hf
      simp [visitFileInfos] at hf
      rw [hf]
  | .dir n entries =>
    rw [gatherFiles] at hf
    by_cases h : pathBase rootPath = "trash"
    · rw [if_pos h] at hf; simp at hf
    · rw [if_neg h] at hf
      exact mem_walkList_new hf

theorem walkList_trashFile_truncates (dirPath : Path) (lastRun : Option Int)
    (pre : List FSEntry) (mt : Int) (c : Nat) (post : List FSEntry) :
    walkList dirPath lastRun (pre ++ FSEntry.file "trash" mt c :: post) =
      walkList dirPath lastRun pre := by
  induction pre generalizing dirPath with
  | nil =>
    simp only [List.nil_append, walkList]
    rw [if_pos (pathBase_append_single dirPath "trash")]
  | cons e pre ih =>
    match e with
    | .file n mt' c' =>
      simp only [List.cons_append, walkList]
      by_cases h : pathBase (dirPath ++ [n]) = "trash"
      · rw [if_pos h, if_pos h]
      · rw [if_neg h, if_neg h]
        cases visitFileInfos (dirPath ++ [n]) (some ⟨n, mt', false⟩) lastRun with
        | none => exact ih dirPath
        | some fd => rw [ih dirPath]
    | .dir n entries =>
      simp only [List.cons_append, walkList]
      by_cases h : pathBase (dirPath ++ [n]) = "trash"
      · rw [if_pos h, if_pos h]
        exact ih dirPath
      · rw [if_neg h, if_neg h, ih dirPath]

theorem mapFind_mapInsert (m : RelMap) (k : Path) (v : FilesData) (q : Path) :
    mapFind (mapInsert m k v) q = if k = q then some v else mapFind m q := by
  induction m with
  | nil => simp [mapInsert, mapFind]
  | cons kv rest ih =>
    obtain ⟨a, b⟩ := kv
    by_cases hak : a = k
    · subst hak
      simp only [mapInsert, if_pos rfl, mapFind]
      by_cases haq : a = q <;> simp [haq]
    · simp only [mapInsert, if_neg hak, mapFind, ih]
      by_cases haq : a = q
      · have hkq : ¬k = q := fun h => hak (h ▸ haq)
        simp [haq, hkq]
      · simp [haq]

theorem buildRelMap_append_single (root : Path) (files : List FilesData) (f : FilesData) :
    buildRelMap root (files ++ [f]) =
      mapInsert (buildRelMap root files) (relPath root f.location) f := by
  simp [buildRelMap, List.foldl_append]

theorem mapFind_buildRelMap_eq_none_iff (root : Path) (files : List FilesData) (q : Path) :
    mapFind (buildRelMap root files) q = none ↔
      ∀ f ∈ files, relPath root f.location ≠ q := by
  induction files using List.reverseRecOn with
  | nil => simp [buildRelMap, mapFind]
  | append_singleton files f ih =>
    rw [buildRelMap_append_single, mapFind_mapInsert]
    by_cases h : relPath root f.location = q
    · rw [if_pos h]
      refine ⟨fun hc => absurd hc (by simp), fun hall => absurd h (hall f (by simp))⟩
    · rw [if_neg h, ih]
      constructor
      · intro hall g hg
        rcases List.mem_append.1 hg with hg' | hg'
        · exact hall g hg'
        · obtain rfl := List.mem_singleton.1 hg'
          exact h
      · intro hall g hg
        exact hall g (by simp [hg])

theorem mapFind_buildRelMap_eq_some {root : Path} {files : List FilesData} {q : Path}
    {v : FilesData} (h : mapFind (buildRelMap root files) q = some v) :
    v ∈ files ∧ relPath root v.location = q := by
  induction files using List.reverseRecOn with
  | nil => simp [buildRelMap, mapFind] at h
  | append_singleton files f ih =>
    rw [buildRelMap_append_single, mapFind_mapInsert] at h
    by_cases hq : relPath root f.location = q
    · rw [if_pos hq] at h
      obtain rfl := Option.some.inj h
      exact ⟨by simp, hq⟩
    · rw [if_neg hq] at h
      obtain ⟨h1, h2⟩ := ih h
      exact ⟨by simp [h1], h2⟩

theorem mapFind_buildRelMap_self {root : Path} {files : List FilesData} {f : FilesData}
    (hf : f ∈ files)
    (hnd : (files.map fun g => relPath root g.location).Nodup) :
    mapFind (buildRelMap root files) (relPath root f.location) = some f := by
  induction files using List.reverseRecOn with
  | nil => simp at hf
  | append_singleton files g ih =>
    rw [buildRelMap_append_single, mapFind_mapInsert]
    rw [List.map_append, List.map_singleton, List.nodup_append] at hnd
    rcases List.mem_append.1 hf with hmem | hlast
    · have hne : relPath root g.location ≠ relPath root f.location := by
        intro heq
        have hmm : relPath root f.location ∈ files.map fun h => relPath root h.location :=
          List.mem_map_of_mem _ hmem
        exact hnd.2.2 hmm (by simp [heq])
      rw [if_neg hne]
      exact ih hmem hnd.1
    · obtain rfl := List.mem_singleton.1 hlast
      rw [if_pos rfl]

theorem extFromChars_suffix {cs e : List Char} (h : extFromChars cs = some e) :
    e <:+ cs := by
  induction cs with
  | nil => simp [extFromChars] at h
  | cons c cs ih =>
    rw [extFromChars] at h
    cases hcs : extFromChars cs with
    | some e' =>
      rw [hcs] at h
      obtain rfl := Option.some.inj h
      exact (ih hcs).trans (List.suffix_cons c cs)
    | none =>
      rw [hcs] at h
      by_cases hc : c = '.'
      · rw [if_pos hc] at h
        obtain rfl := Option.some.inj h
        exact List.suffix_refl _
      · rw [if_neg hc] at h
        exact absurd h (by simp)

theorem stringMk_append (a b : List Char) : String.mk a ++ String.mk b = String.mk (a ++ b) :=
  rfl

theorem stringMk_toList (s : String) : String.mk s.toList = s := by
  cases s
  rfl

theorem stringAppend_empty (s : String) : s ++ "" = s := by
  cases s with
  | mk d =>
    show String.mk (d ++ []) = String.mk d
    rw [List.append_nil]

theorem trimSuffix_fileExt_append (name : String) :
    trimSuffix name (fileExt name) ++ fileExt name = name := by
  rw [fileExt]
  cases hx : extFromChars name.toList with
  | none =>
    rw [trimSuffix, if_pos (show ("" : String).toList <:+ name.toList from List.nil_suffix)]
    rw [stringAppend_empty]
    have h1 : name.toList.length - ("" : String).toList.length = name.toList.length := by simp
    rw [h1, List.take_length]
    exact stringMk_toList name
  | some e =>
    obtain ⟨t, ht⟩ := extFromChars_suffix hx
    rw [trimSuffix]
    have htl : (String.mk e).toList = e := rfl
    rw [if_pos (by rw [htl]; exact ⟨t, ht⟩)]
    rw [htl, ← ht]
    have hlen : (t ++ e).length - e.length = t.length := by
      simp
    rw [hlen, List.take_left, stringMk_append, ht, stringMk_toList]

theorem fsGet_fsSet (s : FState) (p : Path) (c : Nat) (q : Path) :
    fsGet (fsSet s p c) q = if q = p then some c else fsGet s q := rfl

theorem fsGet_fsRemove (s : FState) (p : Path) (q : Path) :
    fsGet (fsRemove s p) q = if q = p then none else fsGet s q := rfl

theorem fsRename_of_get {s : FState} {src : Path} {c : Nat} (h : fsGet s src = some c)
    (dst : Path) : fsRename s src dst = fsSet (fsRemove s src) dst c := by
  have h' : s src = some c := h
  rw [fsRename, h']

theorem orphanPhase_pair (env : RunEnv) (cfg : PathsConfig) (start : GoTime) (inMap : RelMap)
    (o₁ o₂ : FilesData) (s s₁ s₂ : FState)
    (h1 : orphanStep env cfg start inMap s o₁ = some s₁)
    (h2 : orphanStep env cfg start inMap s₁ o₂ = some s₂) :
    orphanPhase env cfg start inMap [o₁, o₂] s = some s₂ := by
  simp only [orphanPhase, List.foldlM_cons, List.foldlM_nil, h1, Option.bind_eq_bind,
    Option.some_bind, h2, Option.pure_def]

theorem orphanStep_isSome (env : RunEnv) (cfg : PathsConfig) (start : GoTime)
    (inMap : RelMap) (s : FState) (o : FilesData) (hmk : env.mkdirFails = []) :
    ∃ s₁, orphanStep env cfg start inMap s o = some s₁ := by
  rw [orphanStep]
  cases mapFind inMap (relPath cfg.outputPath o.location) with
  | some v => exact ⟨s, rfl⟩
  | none =>
    by_cases hr : o.location ∈ env.renameFails
    · exact ⟨s, by simp [createIfNotExist, hmk, hr]⟩
    · exact ⟨fsRename s o.location (trashDest cfg.outputPath o.name start),
        by simp [createIfNotExist, hmk, hr]⟩

theorem orphanPhase_isSome (env : RunEnv) (cfg : PathsConfig) (start : GoTime)
    (inMap : RelMap) (outs : List FilesData) (s : FState) (hmk : env.mkdirFails = []) :
    ∃ s', orphanPhase env cfg start inMap outs s = some s' := by
  induction outs generalizing s with
  | nil => exact ⟨s, rfl⟩
  | cons o outs ih =>
    obtain ⟨s₁, h1⟩ := orphanStep_isSome env cfg start inMap s o hmk
    obtain ⟨s', h'⟩ := ih s₁
    exact ⟨s', by rw [orphanPhase, List.foldlM_cons, h1]; exact h'⟩

theorem copyStep_isSome (env : RunEnv) (cfg : PathsConfig) (root : Option FSEntry)
    (s : FState) (i : FilesData) (hmk : env.mkdirFails = []) :
    ∃ s₁, copyStep env cfg root s i = some s₁ := by
  by_cases hn : i.new = true
  · by_cases hcf : cfg.outputPath ++ relPath cfg.inputPath i.location ∈ env.copyFails
    · exact ⟨s, by simp [copyStep, hn, createIfNotExist, hmk, hcf]⟩
    · cases hct : contentAt root (relPath cfg.inputPath i.location) with
      | some c =>
        exact ⟨fsSet s (cfg.outputPath ++ relPath cfg.inputPath i.location) c,
          by simp [copyStep, hn, createIfNotExist, hmk, hcf, hct]⟩
      | none => exact ⟨s, by simp [copyStep, hn, createIfNotExist, hmk, hcf, hct]⟩
  · exact ⟨s, by rw [copyStep, if_neg hn]⟩

theorem copyPhase_isSome (env : RunEnv) (cfg : PathsConfig) (root : Option FSEntry)
    (ins : List FilesData) (s : FState) (hmk : env.mkdirFails = []) :
    ∃ s', copyPhase env cfg root ins s = some s' := by
  induction ins generalizing s with
  | nil => exact ⟨s, rfl⟩
  | cons i ins ih =>
    obtain ⟨s₁, h1⟩ := copyStep_isSome env cfg root s i hmk
    obtain ⟨s', h'⟩ := ih s₁
    exact ⟨s', by rw [copyPhase, List.foldlM_cons, h1]; exact h'⟩

theorem copyStep_fsGet_preserved {env : RunEnv} {cfg : PathsConfig} {root : Option FSEntry}
    {s s₁ : FState} {i : FilesData} {p : Path}
    (hp : i.new = true → cfg.outputPath ++ relPath cfg.inputPath i.location ≠ p)
    (h : copyStep env cfg root s i = some s₁) : fsGet s₁ p = fsGet s p := by
  by_cases hn : i.new = true
  · simp only [copyStep, hn, if_true] at h
    split at h
    · cases h
    · split at h
      · obtain rfl := Option.some.inj h
        rfl
      · split at h
        · obtain rfl := Option.some.inj h
          rw [fsGet_fsSet, if_neg (fun he => absurd he.symm (hp hn))]
        · obtain rfl := Option.some.inj h
          rfl
  · rw [copyStep, if_neg hn] at h
    obtain rfl := Option.some.inj h
    rfl

theorem copyPhase_fsGet_preserved {env : RunEnv} {cfg : PathsConfig} {root : Option FSEntry}
    {ins : List FilesData} {s s' : FState} {p : Path}
    (hp : ∀ f ∈ ins, f.new = true → cfg.outputPath ++ relPath cfg.inputPath f.location ≠ p)
    (h : copyPhase env cfg root ins s = some s') : fsGet s' p = fsGet s p := by
  induction ins generalizing s with
  | nil =>
    obtain rfl := Option.some.inj h
    rfl
  | cons i ins ih =>
    rw [copyPhase, List.foldlM_cons] at h
    cases hstep : copyStep env cfg root s i with
    | none => rw [hstep] at h; cases h
    | some s₁ =>
      rw [hstep] at h
      have h1 : fsGet s₁ p = fsGet s p :=
        copyStep_fsGet_preserved (hp i (by simp)) hstep
      rw [ih (fun f hf => hp f (by simp [hf])) h, h1]

theorem copyPhase_copies {env : RunEnv} {cfg : PathsConfig} {root : Option FSEntry}
    {ins : List FilesData} {i : FilesData} {c : Nat} (s : FState)
    (hmk : env.mkdirFails = [])
    (hi : i ∈ ins) (hnew : i.new = true)
    (hnd : (ins.map fun f => relPath cfg.inputPath f.location).Nodup)
    (hnc : cfg.outputPath ++ relPath cfg.inputPath i.location ∉ env.copyFails)
    (hc : contentAt root (relPath cfg.inputPath i.location) = some c) :
    ∃ s', copyPhase env cfg root ins s = some s' ∧
      fsGet s' (cfg.outputPath ++ relPath cfg.inputPath i.location) = some c := by
  induction ins generalizing s with
  | nil => simp at hi
  | cons j ins ih =>
    rw [List.map_cons, List.nodup_cons] at hnd
    rcases List.mem_cons.1 hi with rfl | hi'
    · have hstep : copyStep env cfg root s i =
          some (fsSet s (cfg.outputPath ++ relPath cfg.inputPath i.location) c) := by
        simp [copyStep, hnew, createIfNotExist, hmk, hnc, hc]
      obtain ⟨s', h'⟩ := copyPhase_isSome env cfg root ins
        (fsSet s (cfg.outputPath ++ relPath cfg.inputPath i.location) c) hmk
      refine ⟨s', by rw [copyPhase, List.foldlM_cons, hstep]; exact h', ?_⟩
      have hpres : fsGet s' (cfg.outputPath ++ relPath cfg.inputPath i.location) =
          fsGet (fsSet s (cfg.outputPath ++ relPath cfg.inputPath i.location) c)
            (cfg.outputPath ++ relPath cfg.inputPath i.location) := by
        apply copyPhase_fsGet_preserved _ h'
        intro f hf _ heq
        have hrel : relPath cfg.inputPath f.location = relPath cfg.inputPath i.location :=
          List.append_cancel_left heq
        exact hnd.1 (hrel ▸ List.mem_map_of_mem _ hf)
      rw [hpres, fsGet_fsSet, if_pos rfl]
    · obtain ⟨s₁, hstep⟩ := copyStep_isSome env cfg root s j hmk
      obtain ⟨s', h', hget⟩ := ih s₁ hi' hnd.2
      exact ⟨s', by rw [copyPhase, List.foldlM_cons, hstep]; exact h', hget⟩

theorem gatherFiles_snd_none (rootPath : Path) (root : Option FSEntry) (lastRun : Option Int) :
    (gatherFiles rootPath root lastRun).2 = none := by
  match root with
  | none => rfl
  | some (.file n mt c) =>
    rw [gatherFiles]
    split
    · rfl
    · split <;> rfl
  | some (.dir n entries) =>
    rw [gatherFiles]
    split <;> rfl

theorem gatherFiles_eq_pair (rootPath : Path) (root : Option FSEntry) (lastRun : Option Int) :
    gatherFiles rootPath root lastRun = ((gatherFiles rootPath root lastRun).1, none) := by
  have h := gatherFiles_snd_none rootPath root lastRun
  cases hg : gatherFiles rootPath root lastRun with
  | mk a b =>
    rw [hg] at h
    simp at h
    rw [h]

theorem runProcess_ok (env : RunEnv) (cfg : PathsConfig) (start : GoTime)
    (inputRoot outputRoot : Option FSEntry) (s : FState)
    (hmk : env.mkdirFails = []) (hlog : env.logOpenFails = false)
    (hp : env.persistFails = false) :
    ∃ s₂, runProcess env cfg start inputRoot outputRoot s = some (s₂, formatRFC3339 start) := by
  have hin := gatherFiles_eq_pair cfg.inputPath inputRoot (env.timeTxt.bind parseRFC3339)
  have hout := gatherFiles_eq_pair cfg.outputPath outputRoot none
  obtain ⟨s₁, h1⟩ := orphanPhase_isSome env cfg start
    (buildRelMap cfg.inputPath (gatherFiles cfg.inputPath inputRoot (env.timeTxt.bind parseRFC3339)).1)
    (gatherFiles cfg.outputPath outputRoot none).1 s hmk
  obtain ⟨s₂, h2⟩ := copyPhase_isSome env cfg inputRoot
    (gatherFiles cfg.inputPath inputRoot (env.timeTxt.bind parseRFC3339)).1 s₁ hmk
  refine ⟨s₂, ?_⟩
  simp only [runProcess]
  rw [hin, hout]
  simp only [createIfNotExist, hmk, List.not_mem_nil, hlog]
  simp only [h1, h2, hp]
  simp

theorem runProcess_persist_none (env : RunEnv) (cfg : PathsConfig) (start : GoTime)
    (inputRoot outputRoot : Option FSEntry) (s : FState)
    (hmk : env.mkdirFails = []) (hlog : env.logOpenFails = false)
    (hp : env.persistFails = true) :
    runProcess env cfg start inputRoot outputRoot s = none := by
  have hin := gatherFiles_eq_pair cfg.inputPath inputRoot (env.timeTxt.bind parseRFC3339)
  have hout := gatherFiles_eq_pair cfg.outputPath outputRoot none
  obtain ⟨s₁, h1⟩ := orphanPhase_isSome env cfg start
    (buildRelMap cfg.inputPath (gatherFiles cfg.inputPath inputRoot (env.timeTxt.bind parseRFC3339)).1)
    (gatherFiles cfg.outputPath outputRoot none).1 s hmk
  obtain ⟨s₂, h2⟩ := copyPhase_isSome env cfg inputRoot
    (gatherFiles cfg.inputPath inputRoot (env.timeTxt.bind parseRFC3339)).1 s₁ hmk
  simp only [runProcess]
  rw [hin, hout]
  simp only [createIfNotExist, hmk, List.not_mem_nil, hlog]
  simp only [h1, h2, hp]
  simp

theorem runProcess_eq_phases (env : RunEnv) (cfg : PathsConfig) (start : GoTime)
    (inputRoot outputRoot : Option FSEntry) (s : FState)
    (hmk1 : cfg.outputPath ∉ env.mkdirFails)
    (hmk2 : (cfg.outputPath ++ ["trash"]) ∉ env.mkdirFails)
    (hlog : env.logOpenFails = false) :
    runProcess env cfg start inputRoot outputRoot s =
      match orphanPhase env cfg start
          (buildRelMap cfg.inputPath
            (gatherFiles cfg.inputPath inputRoot (env.timeTxt.bind parseRFC3339)).1)
          (gatherFiles cfg.outputPath outputRoot none).1 s with
      | none => none
      | some s1 =>
        match copyPhase env cfg inputRoot
            (gatherFiles cfg.inputPath inputRoot (env.timeTxt.bind parseRFC3339)).1 s1 with
        | none => none
        | some s2 => if env.persistFails then none else some (s2, formatRFC3339 start) := by
  have hin := gatherFiles_eq_pair cfg.inputPath inputRoot (env.timeTxt.bind parseRFC3339)
  have hout := gatherFiles_eq_pair cfg.outputPath outputRoot none
  simp only [runProcess]
  rw [hin, hout]
  simp only [createIfNotExist, if_neg hmk1, if_neg hmk2, hlog]
  rfl

theorem runProcess_eq_phases_of_scans (env : RunEnv) (cfg : PathsConfig) (start : GoTime)
    (inputRoot outputRoot : Option FSEntry) (s : FState)
    (filesIn filesOut : List FilesData)
    (hfin : (gatherFiles cfg.inputPath inputRoot (env.timeTxt.bind parseRFC3339)).1 = filesIn)
    (hfout : (gatherFiles cfg.outputPath outputRoot none).1 = filesOut)
    (hmk1 : cfg.outputPath ∉ env.mkdirFails)
    (hmk2 : (cfg.outputPath ++ ["trash"]) ∉ env.mkdirFails)
    (hlog : env.logOpenFails = false) :
    runProcess env cfg start inputRoot outputRoot s =
      match orphanPhase env cfg start (buildRelMap cfg.inputPath filesIn) filesOut s with
      | none => none
      | some s1 =>
        match copyPhase env cfg inputRoot filesIn s1 with
        | none => none
        | some s2 => if env.persistFails then none else some (s2, formatRFC3339 start) := by
  subst hfin
  subst hfout
  exact runProcess_eq_phases env cfg start inputRoot outputRoot s hmk1 hmk2 hlog

theorem stringAppend_assoc (a b c : String) : a ++ b ++ c = a ++ (b ++ c) := by
  cases a with
  | mk x =>
    cases b with
    | mk y =>
      cases c with
      | mk z =>
        show String.mk (x ++ y ++ z) = String.mk (x ++ (y ++ z))
        rw [List.append_assoc]

/-- Failure-free run environment: `time.txt` absent, all filesystem
operations succeed. -/
def envNoFail : RunEnv := ⟨none, false, [], [], [], false⟩

/-- Destination the specification prescribes for an orphan: the trash root
joined with the orphan's relative directory and the timestamped name,
preserving subdirectory structure. Stated from the spec's words, for
comparison with the code's `trashDest`. -/
def trashDestSpec (outputPath : Path) (relDir : Path) (name : String) (start : GoTime) :
    Path :=
  outputPath ++ ["trash"] ++ relDir ++ [timestampedName name start]

/-! Claim theorems. -/

/-- C1: contrary to the claim, a scan whose root does not exist (or is
inaccessible) returns an empty file list together with a NIL error: the walk
callback swallows the root error, so `gatherFiles` can never return a
non-nil error and the `log.Fatal` branches in the callers are unreachable.
This theorem evaluates the code at the failing input (`root = none`) and
shows the error component is always nil. -/
theorem claim_C1_missing_root_nil_error (rootPath : Path) (lastRun : Option Int) :
    gatherFiles rootPath none lastRun = ([], none) ∧
    ∀ root : Option FSEntry, (gatherFiles rootPath root lastRun).2 = none :=
  ⟨rfl, fun root => gatherFiles_snd_none rootPath root lastRun⟩

/-- C4: a record produced by an input-tree scan has `isNew` true iff no prior
run is recorded or its modification time is strictly after the last run
timestamp; equality at the boundary is not new, any strictly later time is. -/
theorem claim_C4_isNew_iff (rootPath : Path) (root : FSEntry) (lastRun : Option Int)
    (f : FilesData) (hf : f ∈ (gatherFiles rootPath (some root) lastRun).1) :
    f.new = true ↔ (lastRun = none ∨ ∃ t, lastRun = some t ∧ t < f.modTime) := by
  rw [mem_gatherFiles_new hf]
  cases lastRun with
  | none => simp [isNewFile]
  | some t => simp [isNewFile]

/-- C4 witness: with last run at time 10, a file modified at exactly 10 is
not new, and with last run at time 9 the same file is new. -/
theorem claim_C4_isNew_iff_witness :
    ((⟨"a.txt", ["in", "a.txt"], 10, false⟩ : FilesData).new = true ↔
      ((some 10 : Option Int) = none ∨
        ∃ t, (some 10 : Option Int) = some t ∧ t < (10 : Int))) ∧
    ((⟨"a.txt", ["in", "a.txt"], 10, true⟩ : FilesData).new = true ↔
      ((some 9 : Option Int) = none ∨
        ∃ t, (some 9 : Option Int) = some t ∧ t < (10 : Int))) :=
  ⟨claim_C4_isNew_iff ["in"] (.dir "in" [.file "a.txt" 10 0]) (some 10) _
      (by simp [gatherFiles, walkList, pathBase, visitFileInfos, isNewFile]),
   claim_C4_isNew_iff ["in"] (.dir "in" [.file "a.txt" 10 0]) (some 9) _
      (by simp [gatherFiles, walkList, pathBase, visitFileInfos, isNewFile])⟩

/-- C7: every record of any scan lies at the scanned root plus a relative
path that contains no `"trash"` component (so nothing under a `trash`
directory is ever scanned), and consequently the records the orphan loop
and the copy loop act on also lie outside every `trash` subtree. -/
theorem claim_C7_trash_excluded :
    (∀ (rootPath : Path) (root : FSEntry) (lastRun : Option Int) (f : FilesData),
        f ∈ (gatherFiles rootPath (some root) lastRun).1 →
        ∃ cs, f.location = rootPath ++ cs ∧ "trash" ∉ cs) ∧
    (∀ (cfg : PathsConfig) (inMap : RelMap) (outRoot : FSEntry) (f : FilesData),
        f ∈ orphanRecords cfg inMap (gatherFiles cfg.outputPath (some outRoot) none).1 →
        ∃ cs, f.location = cfg.outputPath ++ cs ∧ "trash" ∉ cs) ∧
    (∀ (cfg : PathsConfig) (inRoot : FSEntry) (lastRun : Option Int) (f : FilesData),
        f ∈ copyRecords (gatherFiles cfg.inputPath (some inRoot) lastRun).1 →
        ∃ cs, f.location = cfg.inputPath ++ cs ∧ "trash" ∉ cs) :=
  ⟨fun _ _ _ _ hf => mem_gatherFiles_location hf,
   fun _ _ _ _ hf => mem_gatherFiles_location (List.mem_of_mem_filter hf),
   fun _ _ _ _ hf => mem_gatherFiles_location (List.mem_of_mem_filter hf)⟩

/-- C7 witness: in a scan of a root containing a `trash` directory, the
surviving record's location is the root plus a trash-free relative path. -/
theorem claim_C7_trash_excluded_witness :
    ∃ cs, (⟨"a.txt", ["out", "a.txt"], 10, true⟩ : FilesData).location = ["out"] ++ cs ∧
      "trash" ∉ cs :=
  claim_C7_trash_excluded.1 ["out"]
    (.dir "out" [.file "a.txt" 10 0, .dir "trash" [.file "x.txt" 1 1]]) none _
    (by simp [gatherFiles, walkList, pathBase, visitFileInfos, isNewFile])

/-- C9: a regular file whose base name is exactly `"trash"` makes the walk
callback return `SkipDir`; per `filepath.Walk` semantics this yields no
record for the file itself and excludes the remaining unvisited entries of
its containing directory, at any depth and also directly under the scanned
root. -/
theorem claim_C9_trash_file_truncates :
    (∀ (dirPath : Path) (lastRun : Option Int) (pre : List FSEntry) (mt : Int) (c : Nat)
        (post : List FSEntry),
      walkList dirPath lastRun (pre ++ FSEntry.file "trash" mt c :: post) =
        walkList dirPath lastRun pre) ∧
    (∀ (rootPath : Path) (nm : String) (lastRun : Option Int) (pre : List FSEntry)
        (mt : Int) (c : Nat) (post : List FSEntry),
      gatherFiles rootPath (some (.dir nm (pre ++ FSEntry.file "trash" mt c :: post))) lastRun =
        gatherFiles rootPath (some (.dir nm pre)) lastRun) := by
  refine ⟨walkList_trashFile_truncates, ?_⟩
  intro rootPath nm lastRun pre mt c post
  rw [gatherFiles, gatherFiles]
  by_cases h : pathBase rootPath = "trash"
  · rw [if_pos h, if_pos h]
  · rw [if_neg h, if_neg h, walkList_trashFile_truncates]

/-- C8: in the unnamed (non-incremental) variant, a file whose relative path
exists in the output map is skipped iff the output's modification time is
strictly after the input's; whenever it is not skipped (output absent, or
output not strictly newer) its relative path is among the paths copied on
this run. -/
theorem claim_C8_v0_skip_iff (cfg : PathsConfig) (outMap : RelMap) (ins : List FilesData)
    (i : FilesData) (hi : i ∈ ins) :
    (shouldSkipCopy outMap (relPath cfg.inputPath i.location) i.modTime = true ↔
      ∃ o, mapFind outMap (relPath cfg.inputPath i.location) = some o ∧
        i.modTime < o.modTime) ∧
    (shouldSkipCopy outMap (relPath cfg.inputPath i.location) i.modTime = false →
      relPath cfg.inputPath i.location ∈ copiedRelPathsV0 cfg outMap ins) := by
  constructor
  · cases h : mapFind outMap (relPath cfg.inputPath i.location) with
    | none => simp [shouldSkipCopy, h]
    | some o => simp [shouldSkipCopy, h]
  · intro hskip
    rw [copiedRelPathsV0]
    exact List.mem_map_of_mem _ (List.mem_filter.2 ⟨hi, by simp [hskip]⟩)

/-- C8 witness: an input at mod time 10 against an output at mod time 20 is
skipped (20 is strictly newer), and the characterization applies at that
concrete configuration. -/
theorem claim_C8_v0_skip_iff_witness :
    ((shouldSkipCopy [( ["a.txt"], ⟨"a.txt", ["out", "a.txt"], 20, false⟩ )]
        (relPath ["in"] (["in", "a.txt"] : Path)) 10 = true) ↔
      ∃ o, mapFind [( ["a.txt"], ⟨"a.txt", ["out", "a.txt"], 20, false⟩ )]
          (relPath ["in"] (["in", "a.txt"] : Path)) = some o ∧ (10 : Int) < o.modTime) ∧
    (shouldSkipCopy [( ["a.txt"], ⟨"a.txt", ["out", "a.txt"], 20, false⟩ )]
        (relPath ["in"] (["in", "a.txt"] : Path)) 10 = false →
      relPath ["in"] (["in", "a.txt"] : Path) ∈
        copiedRelPathsV0 ⟨["in"], ["out"]⟩ [( ["a.txt"], ⟨"a.txt", ["out", "a.txt"], 20, false⟩ )]
          [⟨"a.txt", ["in", "a.txt"], 10, true⟩]) := by
  have h := claim_C8_v0_skip_iff ⟨["in"], ["out"]⟩
    [( ["a.txt"], ⟨"a.txt", ["out", "a.txt"], 20, false⟩ )]
    [⟨"a.txt", ["in", "a.txt"], 10, true⟩] ⟨"a.txt", ["in", "a.txt"], 10, true⟩ (by decide)
  exact h

/-- C5: with duplicate-free input relative paths (always true of a real
filesystem walk), the orphan loop acts on exactly the relative paths present
in the output scan and absent from `inFilesMap`; the copy loop acts on
exactly the relative paths whose `inFilesMap` entry has `New` set; and a
relative path present in both maps whose entry is not new is touched by
neither loop. -/
theorem claim_C5_orphan_and_copy_sets (cfg : PathsConfig) (ins outs : List FilesData)
    (hnd : (ins.map fun f => relPath cfg.inputPath f.location).Nodup) :
    (∀ q, (q ∈ (orphanRecords cfg (buildRelMap cfg.inputPath ins) outs).map
          fun o => relPath cfg.outputPath o.location) ↔
        ((q ∈ outs.map fun o => relPath cfg.outputPath o.location) ∧
          mapFind (buildRelMap cfg.inputPath ins) q = none)) ∧
    (∀ q, (q ∈ (copyRecords ins).map fun i => relPath cfg.inputPath i.location) ↔
        (∃ v, mapFind (buildRelMap cfg.inputPath ins) q = some v ∧ v.new = true)) ∧
    (∀ q v, mapFind (buildRelMap cfg.inputPath ins) q = some v → v.new = false →
        (q ∉ (orphanRecords cfg (buildRelMap cfg.inputPath ins) outs).map
            fun o => relPath cfg.outputPath o.location) ∧
        (q ∉ (copyRecords ins).map fun i => relPath cfg.inputPath i.location)) := by
  have horph : ∀ q, (q ∈ (orphanRecords cfg (buildRelMap cfg.inputPath ins) outs).map
        fun o => relPath cfg.outputPath o.location) ↔
      ((q ∈ outs.map fun o => relPath cfg.outputPath o.location) ∧
        mapFind (buildRelMap cfg.inputPath ins) q = none) := by
    intro q
    constructor
    · intro hq
      obtain ⟨o, ho, rfl⟩ := List.mem_map.1 hq
      obtain ⟨homem, hnone⟩ := List.mem_filter.1 ho
      refine ⟨List.mem_map_of_mem _ homem, ?_⟩
      simpa [Option.isNone_iff_eq_none] using hnone
    · rintro ⟨hq, hnone⟩
      obtain ⟨o, ho, rfl⟩ := List.mem_map.1 hq
      refine List.mem_map_of_mem _ (List.mem_filter.2 ⟨ho, ?_⟩)
      simp [hnone]
  have hcopy : ∀ q, (q ∈ (copyRecords ins).map fun i => relPath cfg.inputPath i.location) ↔
      (∃ v, mapFind (buildRelMap cfg.inputPath ins) q = some v ∧ v.new = true) := by
    intro q
    constructor
    · intro hq
      obtain ⟨f, hf, rfl⟩ := List.mem_map.1 hq
      obtain ⟨hfmem, hfnew⟩ := List.mem_filter.1 hf
      exact ⟨f, mapFind_buildRelMap_self hfmem hnd, by simpa using hfnew⟩
    · rintro ⟨v, hfind, hvnew⟩
      obtain ⟨hvmem, hvrel⟩ := mapFind_buildRelMap_eq_some hfind
      rw [← hvrel]
      exact List.mem_map_of_mem _ (List.mem_filter.2 ⟨hvmem, by simp [hvnew]⟩)
  refine ⟨horph, hcopy, fun q v hfind hvnew => ⟨?_, ?_⟩⟩
  · intro hq
    exact absurd ((horph q).1 hq).2 (by simp [hfind])
  · intro hq
    obtain ⟨v', hfind', hvnew'⟩ := (hcopy q).1 hq
    rw [hfind] at hfind'
    obtain rfl := Option.some.inj hfind'
    rw [hvnew] at hvnew'
    cases hvnew'

/-- C5 witness: a concrete pair of scans — input `a.txt` (new) and `b.txt`
(not new), output `b.txt` and `c.txt` — where the orphan characterization
holds at the relative path of `c.txt`. -/
theorem claim_C5_orphan_and_copy_sets_witness :
    (["c.txt"] : Path) ∈ (orphanRecords ⟨["in"], ["out"]⟩
        (buildRelMap ["in"] [⟨"a.txt", ["in", "a.txt"], 10, true⟩,
          ⟨"b.txt", ["in", "b.txt"], 5, false⟩])
        [⟨"b.txt", ["out", "b.txt"], 9, false⟩, ⟨"c.txt", ["out", "c.txt"], 9, false⟩]).map
        (fun o => relPath (["out"] : Path) o.location) ↔
      ((["c.txt"] : Path) ∈ ([⟨"b.txt", ["out", "b.txt"], 9, false⟩,
          ⟨"c.txt", ["out", "c.txt"], 9, false⟩] : List FilesData).map
          (fun o => relPath (["out"] : Path) o.location) ∧
        mapFind (buildRelMap ["in"] [⟨"a.txt", ["in", "a.txt"], 10, true⟩,
          ⟨"b.txt", ["in", "b.txt"], 5, false⟩]) ["c.txt"] = none) :=
  (claim_C5_orphan_and_copy_sets ⟨["in"], ["out"]⟩
    [⟨"a.txt", ["in", "a.txt"], 10, true⟩, ⟨"b.txt", ["in", "b.txt"], 5, false⟩]
    [⟨"b.txt", ["out", "b.txt"], 9, false⟩, ⟨"c.txt", ["out", "c.txt"], 9, false⟩]
    (by decide)).1 ["c.txt"]

/-- C2 counterexample: with output root `out` and an orphan `a.txt` inside
subdirectory `sub`, the code's destination differs from the spec-prescribed
destination (which keeps the `sub` component), and running the orphan loop
leaves the content at the flattened path `out/trash/a.20240102030405.txt`
with nothing at the spec's nested path; the original location is emptied. -/
theorem claim_C2_counterexample :
    trashDest ["out"] "a.txt" ⟨2024, 1, 2, 3, 4, 5⟩ ≠
      trashDestSpec ["out"] ["sub"] "a.txt" ⟨2024, 1, 2, 3, 4, 5⟩ ∧
    ((orphanPhase envNoFail ⟨["in"], ["out"]⟩ ⟨2024, 1, 2, 3, 4, 5⟩ []
        [⟨"a.txt", ["out", "sub", "a.txt"], 0, false⟩]
        (fun q => if q = ["out", "sub", "a.txt"] then some 7 else none)).map
      (fun st => (fsGet st (trashDestSpec ["out"] ["sub"] "a.txt" ⟨2024, 1, 2, 3, 4, 5⟩),
                  fsGet st ["out", "trash", "a.20240102030405.txt"],
                  fsGet st ["out", "sub", "a.txt"]))) = some (none, some 7, none) := by
  constructor
  · decide
  · decide

/-- C2 (amended): for every orphan record the operation performed is a
rename to the output tree's trash root joined with the new name ALONE — the
orphan's relative directory is not inserted, so subdirectory structure is
flattened into the trash root; the new name is the base name with its
extension stripped, a literal `.` plus the compact run timestamp appended,
and the original extension reapplied (stripping and reapplying reconstitute
the original base name). -/
theorem claim_C2_trash_destination (env : RunEnv) (cfg : PathsConfig) (start : GoTime)
    (inMap : RelMap) (s : FState) (o : FilesData)
    (horb : mapFind inMap (relPath cfg.outputPath o.location) = none)
    (hmk : env.mkdirFails = []) (hrn : o.location ∉ env.renameFails) :
    orphanStep env cfg start inMap s o =
      some (fsRename s o.location (trashDest cfg.outputPath o.name start)) ∧
    trashDest cfg.outputPath o.name start =
      cfg.outputPath ++ ["trash",
        trimSuffix o.name (fileExt o.name) ++ "." ++ formatCompact start ++
          fileExt o.name] ∧
    trimSuffix o.name (fileExt o.name) ++ fileExt o.name = o.name := by
  refine ⟨?_, ?_, trimSuffix_fileExt_append o.name⟩
  · simp only [orphanStep]
    rw [horb]
    simp [createIfNotExist, hmk, hrn]
  · rw [trashDest, timestampedName]
    simp [stringAppend_assoc]

/-- C2 witness: the amended statement at a concrete orphan `a.txt` under
`out/sub` with run time 2024-01-02 03:04:05. -/
theorem claim_C2_trash_destination_witness :
    orphanStep envNoFail ⟨["in"], ["out"]⟩ ⟨2024, 1, 2, 3, 4, 5⟩ []
      (fun q => if q = ["out", "sub", "a.txt"] then some 7 else none)
      ⟨"a.txt", ["out", "sub", "a.txt"], 0, false⟩ =
      some (fsRename (fun q => if q = ["out", "sub", "a.txt"] then some 7 else none)
        ["out", "sub", "a.txt"] (trashDest ["out"] "a.txt" ⟨2024, 1, 2, 3, 4, 5⟩)) ∧
    trashDest ["out"] "a.txt" ⟨2024, 1, 2, 3, 4, 5⟩ =
      ["out"] ++ ["trash",
        trimSuffix "a.txt" (fileExt "a.txt") ++ "." ++
          formatCompact ⟨2024, 1, 2, 3, 4, 5⟩ ++ fileExt "a.txt"] ∧
    trimSuffix "a.txt" (fileExt "a.txt") ++ fileExt "a.txt" = "a.txt" :=
  claim_C2_trash_destination envNoFail ⟨["in"], ["out"]⟩ ⟨2024, 1, 2, 3, 4, 5⟩ []
    (fun q => if q = ["out", "sub", "a.txt"] then some 7 else none)
    ⟨"a.txt", ["out", "sub", "a.txt"], 0, false⟩ rfl rfl (by decide)

/-- C10: the trash destination is a function of the orphan's base name and
the run timestamp only (the relative directory does not enter); two orphans
with equal base names in different subdirectories share one destination,
and processing them in order leaves the second orphan's content at the
shared destination — the second rename has replaced the first relocated
file — while both original locations are emptied. -/
theorem claim_C10_basename_collision (cfg : PathsConfig) (start : GoTime) (inMap : RelMap)
    (o₁ o₂ : FilesData) (s : FState) (c₁ c₂ : Nat)
    (hname : o₁.name = o₂.name)
    (h1 : mapFind inMap (relPath cfg.outputPath o₁.location) = none)
    (h2 : mapFind inMap (relPath cfg.outputPath o₂.location) = none)
    (hne : o₁.location ≠ o₂.location)
    (hd1 : o₁.location ≠ trashDest cfg.outputPath o₂.name start)
    (hd2 : o₂.location ≠ trashDest cfg.outputPath o₂.name start)
    (hget1 : fsGet s o₁.location = some c₁)
    (hget2 : fsGet s o₂.location = some c₂) :
    trashDest cfg.outputPath o₁.name start = trashDest cfg.outputPath o₂.name start ∧
    ∃ s', orphanPhase envNoFail cfg start inMap [o₁, o₂] s = some s' ∧
      fsGet s' (trashDest cfg.outputPath o₂.name start) = some c₂ ∧
      fsGet s' o₁.location = none ∧
      fsGet s' o₂.location = none := by
  have hd : trashDest cfg.outputPath o₁.name start = trashDest cfg.outputPath o₂.name start := by
    rw [hname]
  have hstep1 : orphanStep envNoFail cfg start inMap s o₁ =
      some (fsSet (fsRemove s o₁.location) (trashDest cfg.outputPath o₂.name start) c₁) := by
    simp only [orphanStep]
    rw [h1]
    simp only [createIfNotExist, envNoFail, List.not_mem_nil, if_neg (fun h => h)]
    rw [hd, fsRename_of_get hget1]
  have g1 : fsGet (fsSet (fsRemove s o₁.location)
      (trashDest cfg.outputPath o₂.name start) c₁) o₂.location = some c₂ := by
    rw [fsGet_fsSet, if_neg hd2, fsGet_fsRemove, if_neg (fun he => hne he.symm)]
    exact hget2
  have hstep2 : orphanStep envNoFail cfg start inMap
      (fsSet (fsRemove s o₁.location) (trashDest cfg.outputPath o₂.name start) c₁) o₂ =
      some (fsSet (fsRemove (fsSet (fsRemove s o₁.location)
          (trashDest cfg.outputPath o₂.name start) c₁) o₂.location)
        (trashDest cfg.outputPath o₂.name start) c₂) := by
    simp only [orphanStep]
    rw [h2]
    simp only [createIfNotExist, envNoFail, List.not_mem_nil, if_neg (fun h => h)]
    rw [fsRename_of_get g1]
  refine ⟨hd, _, orphanPhase_pair envNoFail cfg start inMap o₁ o₂ s _ _ hstep1 hstep2,
    ?_, ?_, ?_⟩
  · rw [fsGet_fsSet, if_pos rfl]
  · rw [fsGet_fsSet, if_neg hd1, fsGet_fsRemove, if_neg hne, fsGet_fsSet, if_neg hd1,
      fsGet_fsRemove, if_pos rfl]
  · rw [fsGet_fsSet, if_neg hd2, fsGet_fsRemove, if_pos rfl]

/-- C10 witness: two orphans both named `a.txt`, under `out/s1` and
`out/s2`, with contents 1 and 2: after the orphan loop the shared flattened
destination holds content 2 and both original locations are empty. -/
theorem claim_C10_basename_collision_witness :
    trashDest ["out"] ("a.txt") ⟨2024, 1, 2, 3, 4, 5⟩ =
      trashDest ["out"] ("a.txt") ⟨2024, 1, 2, 3, 4, 5⟩ ∧
    ∃ s', orphanPhase envNoFail ⟨["in"], ["out"]⟩ ⟨2024, 1, 2, 3, 4, 5⟩ []
        [⟨"a.txt", ["out", "s1", "a.txt"], 0, false⟩,
         ⟨"a.txt", ["out", "s2", "a.txt"], 0, false⟩]
        (fun q => if q = ["out", "s1", "a.txt"] then some 1
          else if q = ["out", "s2", "a.txt"] then some 2 else none) = some s' ∧
      fsGet s' (trashDest ["out"] ("a.txt") ⟨2024, 1, 2, 3, 4, 5⟩) = some 2 ∧
      fsGet s' ["out", "s1", "a.txt"] = none ∧
      fsGet s' ["out", "s2", "a.txt"] = none :=
  claim_C10_basename_collision ⟨["in"], ["out"]⟩ ⟨2024, 1, 2, 3, 4, 5⟩ []
    ⟨"a.txt", ["out", "s1", "a.txt"], 0, false⟩
    ⟨"a.txt", ["out", "s2", "a.txt"], 0, false⟩
    (fun q => if q = ["out", "s1", "a.txt"] then some 1
      else if q = ["out", "s2", "a.txt"] then some 2 else none) 1 2
    rfl rfl rfl (by decide) (by decide) (by decide) (by decide) (by decide)

/-- C3 counterexample: a run in which creating one destination directory
(`out/d`) fails. Contrary to the claim, the whole process aborts
(`createIfNotExist` calls `os.Exit(1)`): the other qualifying file
`b.txt` is not copied and no run-state timestamp is persisted — the run
returns the fatal outcome `none` instead of a persisted state. -/
theorem claim_C3_counterexample :
    runProcess ⟨none, false, [["out", "d"]], [], [], false⟩ ⟨["in"], ["out"]⟩
      ⟨2024, 1, 2, 3, 4, 5⟩
      (some (.dir "in" [.dir "d" [.file "a.txt" 10 1], .file "b.txt" 10 2]))
      (some (.dir "out" [])) (fun _ => none) = none := by
  have hin1 : (gatherFiles ["in"]
      (some (.dir "in" [.dir "d" [.file "a.txt" 10 1], .file "b.txt" 10 2]))
      ((⟨none, false, [["out", "d"]], [], [], false⟩ : RunEnv).timeTxt.bind parseRFC3339)).1 =
      [⟨"a.txt", ["in", "d", "a.txt"], 10, true⟩,
        ⟨"b.txt", ["in", "b.txt"], 10, true⟩] := by
    simp [gatherFiles, walkList, pathBase, visitFileInfos, isNewFile]
  have hout1 : (gatherFiles ["out"] (some (.dir "out" [])) none).1 = [] := by
    simp [gatherFiles, walkList, pathBase]
  rw [runProcess_eq_phases_of_scans _ _ _ _ _ _ _ _ hin1 hout1 (by decide) (by decide) rfl]
  rfl

/-- C3 (amended): a failure of `copyFile` itself is recoverable — every
other qualifying file is still copied and the run still completes with the
run-state timestamp persisted — but a destination-directory creation
failure is fatal (`os.Exit(1)`) and aborts the process, so the claim's
mkdir-failure case does not enjoy partial-failure isolation. With no mkdir
failures a run always completes and persists the start timestamp, whatever
copy or rename failures occur, and each new file whose own copy does not
fail ends up with its content at its destination. -/
theorem claim_C3_copy_failure_isolated :
    (∀ (env : RunEnv) (cfg : PathsConfig) (start : GoTime)
        (inputRoot outputRoot : Option FSEntry) (s : FState),
      env.mkdirFails = [] → env.logOpenFails = false → env.persistFails = false →
      ∃ s₂, runProcess env cfg start inputRoot outputRoot s =
        some (s₂, formatRFC3339 start)) ∧
    (∀ (env : RunEnv) (cfg : PathsConfig) (root : Option FSEntry) (ins : List FilesData)
        (i : FilesData) (c : Nat) (s : FState),
      env.mkdirFails = [] → i ∈ ins → i.new = true →
      (ins.map fun f => relPath cfg.inputPath f.location).Nodup →
      cfg.outputPath ++ relPath cfg.inputPath i.location ∉ env.copyFails →
      contentAt root (relPath cfg.inputPath i.location) = some c →
      ∃ s', copyPhase env cfg root ins s = some s' ∧
        fsGet s' (cfg.outputPath ++ relPath cfg.inputPath i.location) = some c) :=
  ⟨fun env cfg start inputRoot outputRoot s hmk hlog hp =>
      runProcess_ok env cfg start inputRoot outputRoot s hmk hlog hp,
   fun _ _ _ _ _ _ s hmk hi hnew hnd hnc hc =>
      copyPhase_copies s hmk hi hnew hnd hnc hc⟩

/-- C3 witness: with `copyFile` failing for `out/b.txt` but no mkdir
failures, the run still completes with the persisted timestamp, and in the
copy loop (failing file first) the other new file `a.txt` still gets its
content copied to `out/a.txt`. -/
theorem claim_C3_copy_failure_isolated_witness :
    (∃ s₂, runProcess ⟨none, false, [], [], [["out", "b.txt"]], false⟩ ⟨["in"], ["out"]⟩
        ⟨2024, 1, 2, 3, 4, 5⟩
        (some (.dir "in" [.file "a.txt" 10 1, .file "b.txt" 10 2]))
        (some (.dir "out" [])) (fun _ => none) =
        some (s₂, formatRFC3339 ⟨2024, 1, 2, 3, 4, 5⟩)) ∧
    (∃ s', copyPhase ⟨none, false, [], [], [["out", "b.txt"]], false⟩ ⟨["in"], ["out"]⟩
        (some (.dir "in" [.file "a.txt" 10 1, .file "b.txt" 10 2]))
        [⟨"b.txt", ["in", "b.txt"], 10, true⟩, ⟨"a.txt", ["in", "a.txt"], 10, true⟩]
        (fun _ => none) = some s' ∧
      fsGet s' (["out"] ++ relPath ["in"]
        ((⟨"a.txt", ["in", "a.txt"], 10, true⟩ : FilesData).location)) = some 1) :=
  ⟨claim_C3_copy_failure_isolated.1 ⟨none, false, [], [], [["out", "b.txt"]], false⟩
      ⟨["in"], ["out"]⟩ ⟨2024, 1, 2, 3, 4, 5⟩
      (some (.dir "in" [.file "a.txt" 10 1, .file "b.txt" 10 2]))
      (some (.dir "out" [])) (fun _ => none) rfl rfl rfl,
   claim_C3_copy_failure_isolated.2 ⟨none, false, [], [], [["out", "b.txt"]], false⟩
      ⟨["in"], ["out"]⟩ (some (.dir "in" [.file "a.txt" 10 1, .file "b.txt" 10 2]))
      [⟨"b.txt", ["in", "b.txt"], 10, true⟩, ⟨"a.txt", ["in", "a.txt"], 10, true⟩]
      ⟨"a.txt", ["in", "a.txt"], 10, true⟩ 1 (fun _ => none)
      rfl (by decide) rfl (by decide) (by decide) (by decide)⟩

/-- C6: when `./time.txt` is absent or its content does not parse as an
RFC 3339 timestamp, the run proceeds without failing (with a failure-free
environment it completes and persists the start timestamp) and the input
scan it performs classifies every file as new; by contrast a failure to
persist the run-state at the end of the run is fatal and the process
aborts. -/
theorem claim_C6_runstate_handling :
    (∀ (env : RunEnv) (cfg : PathsConfig) (start : GoTime)
        (inputRoot outputRoot : Option FSEntry) (s : FState),
      env.mkdirFails = [] → env.logOpenFails = false →
      env.timeTxt.bind parseRFC3339 = none → env.persistFails = false →
      (∃ s₂, runProcess env cfg start inputRoot outputRoot s =
        some (s₂, formatRFC3339 start)) ∧
      ∀ f ∈ (gatherFiles cfg.inputPath inputRoot (env.timeTxt.bind parseRFC3339)).1,
        f.new = true) ∧
    (∀ (env : RunEnv) (cfg : PathsConfig) (start : GoTime)
        (inputRoot outputRoot : Option FSEntry) (s : FState),
      env.mkdirFails = [] → env.logOpenFails = false → env.persistFails = true →
      runProcess env cfg start inputRoot outputRoot s = none) := by
  constructor
  · intro env cfg start inputRoot outputRoot s hmk hlog hbind hp
    refine ⟨runProcess_ok env cfg start inputRoot outputRoot s hmk hlog hp, ?_⟩
    intro f hf
    rw [hbind] at hf
    cases inputRoot with
    | none => simp [gatherFiles] at hf
    | some root =>
      rw [mem_gatherFiles_new hf]
      rfl
  · intro env cfg start inputRoot outputRoot s hmk hlog hp
    exact runProcess_persist_none env cfg start inputRoot outputRoot s hmk hlog hp

/-- C6 witness: with `time.txt` containing the unparsable string
`"notatime"` the run completes with a persisted timestamp and the single
input file is classified new; with persistence failing the run aborts. -/
theorem claim_C6_runstate_handling_witness :
    ((∃ s₂, runProcess ⟨some "notatime", false, [], [], [], false⟩ ⟨["in"], ["out"]⟩
        ⟨2024, 1, 2, 3, 4, 5⟩ (some (.dir "in" [.file "a.txt" 10 1]))
        (some (.dir "out" [])) (fun _ => none) =
        some (s₂, formatRFC3339 ⟨2024, 1, 2, 3, 4, 5⟩)) ∧
      ∀ f ∈ (gatherFiles ["in"] (some (.dir "in" [.file "a.txt" 10 1]))
          ((⟨some "notatime", false, [], [], [], false⟩ : RunEnv).timeTxt.bind
            parseRFC3339)).1,
        f.new = true) ∧
    runProcess ⟨none, false, [], [], [], true⟩ ⟨["in"], ["out"]⟩ ⟨2024, 1, 2, 3, 4, 5⟩
      (some (.dir "in" [.file "a.txt" 10 1])) (some (.dir "out" []))
      (fun _ => none) = none :=
  ⟨claim_C6_runstate_handling.1 ⟨some "notatime", false, [], [], [], false⟩
      ⟨["in"], ["out"]⟩ ⟨2024, 1, 2, 3, 4, 5⟩ (some (.dir "in" [.file "a.txt" 10 1]))
      (some (.dir "out" [])) (fun _ => none) rfl rfl (by decide) rfl,
   claim_C6_runstate_handling.2 ⟨none, false, [], [], [], true⟩ ⟨["in"], ["out"]⟩
      ⟨2024, 1, 2, 3, 4, 5⟩ (some (.dir "in" [.file "a.txt" 10 1]))
      (some (.dir "out" [])) (fun _ => none) rfl rfl rfl⟩

end FolderBackup
